import Mathlib

/-!
Verification of the signaling and room-membership coordinator of the
VideoCall repository (src/server/server.js).

The server keeps two JavaScript `Map`s: `rooms` (room code to room state)
and `users` (socket id to a registry entry holding the room code and the
display name).  We embed a JavaScript `Map` as an association list with
distinct keys: `set` overwrites in place, `delete` removes the entry,
`size` is the number of entries.  Each socket event handler of server.js
becomes a Lean function from the server state (and the event payload) to
the new state paired with the list of emitted messages.  Socket.io
delivery details (which transport a message reaches) are abstracted into
the `Dest` of each emission: `Dest.conn c` is `socket.emit` on connection
`c` or `socket.to(c)` for a single target, `Dest.roomExcept code c` is
`socket.to(code)`, the broadcast to the members of room `code` other than
the sender `c`.

`Math.random().toString(36).substring(2, 8).toUpperCase()` is embedded by
passing the fractional base-36 digit sequence of the random value as an
explicit parameter: `toString(36)` prints `0.` followed by those digits
(just `0` for the value zero, and terminating expansions print fewer
digits), `substring(2, 8)` keeps at most the first six of them, and the
alphabet is rendered uppercase.
-/

namespace VideoCall

/-- A connection (socket) identifier; `socket.id` in server.js. -/
abbrev Cid := Nat

/-- A member record stored in `room.users` by server.js
(`{ id, name, isHost }`). -/
structure Participant where
  id : Cid
  name : String
  isHost : Bool
deriving DecidableEq, Repr

/-- A registry entry stored in the global `users` map by server.js
(`{ roomCode, name }`). -/
structure RegEntry where
  roomCode : String
  name : String
deriving DecidableEq, Repr

/-- A room as stored in the global `rooms` map
(`{ code, host, users, createdAt }`); `createdAt` is `Date.now()`,
informational only, modelled as `0`. -/
structure Room where
  code : String
  host : Cid
  users : List (Cid × Participant)
  createdAt : Nat
deriving DecidableEq, Repr

/-- The mutable server state: the two global maps of server.js. -/
structure ServerState where
  rooms : List (String × Room)
  users : List (Cid × RegEntry)
deriving DecidableEq, Repr

/-- JavaScript `Map.prototype.set`: overwrite the binding of `k` in place
if present, otherwise append it. -/
def setA {α β : Type} [DecidableEq α] (k : α) (v : β) : List (α × β) → List (α × β)
  | [] => [(k, v)]
  | (a, b) :: t => if a = k then (k, v) :: t else (a, b) :: setA k v t

/-- JavaScript `Map.prototype.delete`: remove the binding of `k`. -/
def delA {α β : Type} [DecidableEq α] (k : α) : List (α × β) → List (α × β)
  | [] => []
  | (a, b) :: t => if a = k then delA k t else (a, b) :: delA k t

/-- JavaScript `Map.prototype.get`. -/
def lookupA {α β : Type} [DecidableEq α] (k : α) : List (α × β) → Option β
  | [] => none
  | (a, b) :: t => if a = k then some b else lookupA k t

/-- JavaScript `Array.from(map.values())`. -/
def valuesA {α β : Type} (l : List (α × β)) : List β := l.map (·.2)

@[simp]
theorem lookupA_nil {α β : Type} [DecidableEq α] (k : α) :
    lookupA k ([] : List (α × β)) = none := rfl

@[simp]
theorem lookupA_setA {α β : Type} [DecidableEq α] (k k' : α) (v : β) (l : List (α × β)) :
    lookupA k' (setA k v l) = if k' = k then some v else lookupA k' l := by
  induction l with
  | nil =>
    by_cases h : k' = k
    · subst h; simp [setA, lookupA]
    · simp [setA, lookupA, h, Ne.symm h]
  | cons p t ih =>
    obtain ⟨a, b⟩ := p
    by_cases hak : a = k
    · subst hak
      by_cases h : k' = a
      · subst h; simp [setA, lookupA]
      · simp [setA, lookupA, h, Ne.symm h]
    · by_cases h : a = k'
      · subst h
        simp [setA, lookupA, hak, Ne.symm hak]
      · simp [setA, lookupA, hak, h, ih]

@[simp]
theorem lookupA_delA {α β : Type} [DecidableEq α] (k k' : α) (l : List (α × β)) :
    lookupA k' (delA k l) = if k' = k then none else lookupA k' l := by
  induction l with
  | nil => simp [delA]
  | cons p t ih =>
    obtain ⟨a, b⟩ := p
    by_cases hak : a = k
    · subst hak
      by_cases h : k' = a
      · subst h; simp [delA, lookupA, ih]
      · simp [delA, lookupA, h, Ne.symm h, ih]
    · by_cases h : a = k'
      · subst h
        simp [delA, lookupA, hak, Ne.symm hak, ih]
      · simp [delA, lookupA, hak, h, ih]

theorem length_setA {α β : Type} [DecidableEq α] (k : α) (v : β) (l : List (α × β)) :
    (setA k v l).length = if (lookupA k l).isSome then l.length else l.length + 1 := by
  induction l with
  | nil => simp [setA]
  | cons p t ih =>
    obtain ⟨a, b⟩ := p
    by_cases hak : a = k
    · subst hak; simp [setA, lookupA]
    · simp only [setA, lookupA, hak, if_neg, ite_false, List.length_cons, ih]
      by_cases hs : (lookupA k t).isSome
      · simp [hs]
      · simp [hs]

theorem length_setA_pos {α β : Type} [DecidableEq α] (k : α) (v : β) (l : List (α × β)) :
    0 < (setA k v l).length := by
  rw [length_setA]
  by_cases hs : (lookupA k l).isSome
  · rw [if_pos hs]
    cases l with
    | nil => simp [lookupA] at hs
    | cons p t => simp
  · rw [if_neg hs]; omega

theorem length_delA_le {α β : Type} [DecidableEq α] (k : α) (l : List (α × β)) :
    (delA k l).length ≤ l.length := by
  induction l with
  | nil => simp [delA]
  | cons p t ih =>
    obtain ⟨a, b⟩ := p
    simp only [delA]
    by_cases hak : a = k
    · rw [if_pos hak]; simp only [List.length_cons]; omega
    · rw [if_neg hak]; simp only [List.length_cons]; omega

theorem delA_nil_key {α β : Type} [DecidableEq α] {k k' : α} {v : β} {l : List (α × β)}
    (hnil : delA k l = []) (hl : lookupA k' l = some v) : k' = k := by
  induction l with
  | nil => simp [lookupA] at hl
  | cons p t ih =>
    obtain ⟨a, b⟩ := p
    simp only [delA] at hnil
    by_cases hak : a = k
    · subst hak
      rw [if_pos rfl] at hnil
      simp only [lookupA] at hl
      by_cases hk : a = k'
      · exact hk.symm
      · rw [if_neg hk] at hl
        exact ih hnil hl
    · rw [if_neg hak] at hnil
      exact absurd hnil (by simp)

theorem length_pos_of_lookupA {α β : Type} [DecidableEq α] {k : α} {v : β}
    {l : List (α × β)} (h : lookupA k l = some v) : 0 < l.length := by
  cases l with
  | nil => simp [lookupA] at h
  | cons p t => simp

/-- The base-36 digit alphabet of JavaScript `Number.prototype.toString(36)`
after `toUpperCase()`: digits `0`-`9` then letters `A`-`Z`. -/
def b36 (i : Fin 36) : Char :=
  if i.val < 10 then Char.ofNat (48 + i.val) else Char.ofNat (55 + i.val)

/-- server.js `generateRoomCode`:
`Math.random().toString(36).substring(2, 8).toUpperCase()`.
`ds` is the fractional base-36 digit sequence printed by `toString(36)`
for the random value in `[0, 1)` — empty for the value `0` (printed `0`,
so `substring(2, 8)` is empty) and shorter than six digits whenever the
printed expansion terminates early (e.g. `0.25` prints `0.9`).
`substring(2, 8)` keeps at most the first six digits. -/
def generateRoomCode (ds : List (Fin 36)) : String :=
  String.mk ((ds.take 6).map b36)

/-- Destination of one `emit` in server.js: a single connection
(`socket.emit` on the requester, or `socket.to(targetId)`), or every
member of a socket.io room except the sender (`socket.to(roomCode)`). -/
inductive Dest where
  | conn (c : Cid)
  | roomExcept (code : String) (c : Cid)
deriving DecidableEq, Repr

/-- The outbound messages server.js emits, with their payload fields. -/
inductive Msg where
  | error (message : String)
  | roomCreated (roomCode : String) (isHost : Bool) (users : List Participant)
  | roomJoined (roomCode : String) (users : List Participant) (isHost : Bool)
  | userJoined (userId : Cid) (userName : String) (users : List Participant)
  | userLeft (userId : Cid) (users : List Participant)
  | offer (offer : String) (caller : Cid)
  | answer (answer : String) (answerer : Cid)
  | iceCandidate (candidate : String) (sender : Cid)
  | translationAudio (audio : String) (language : String) (sender : Cid)
deriving DecidableEq, Repr

/-- One outbound emission: destination and message. -/
abbrev Emit := Dest × Msg

/-- The `create-room` handler of server.js (lines 32-58): generate a code,
build a room with the creator as its sole, host-flagged member, store it,
bind the creator in the registry, and emit `room-created` to the
requester.  `ds` is the digit sequence consumed by `generateRoomCode`;
`createdAt` (`Date.now()`) is modelled as `0`. -/
def handleCreateRoom (s : ServerState) (cid : Cid) (userName : String)
    (ds : List (Fin 36)) : ServerState × List Emit :=
  let roomCode := generateRoomCode ds
  let room : Room :=
    { code := roomCode, host := cid,
      users := setA cid { id := cid, name := userName, isHost := true } [],
      createdAt := 0 }
  ({ rooms := setA roomCode room s.rooms,
     users := setA cid { roomCode := roomCode, name := userName } s.users },
   [(Dest.conn cid, Msg.roomCreated roomCode true (valuesA room.users))])

/-- The `join-room` handler of server.js (lines 61-101): reject with
`Room not found` if the code is not live, with `Room is full` if the room
already has at least four members; otherwise insert a non-host member,
bind the joiner in the registry, broadcast `user-joined` to the other
members and emit `room-joined` to the requester. -/
def handleJoinRoom (s : ServerState) (cid : Cid) (roomCode userName : String) :
    ServerState × List Emit :=
  match lookupA roomCode s.rooms with
  | none => (s, [(Dest.conn cid, Msg.error "Room not found")])
  | some room =>
    if 4 ≤ room.users.length then
      (s, [(Dest.conn cid, Msg.error "Room is full")])
    else
      let room2 : Room :=
        { room with
          users := setA cid { id := cid, name := userName, isHost := false } room.users }
      ({ rooms := setA roomCode room2 s.rooms,
         users := setA cid { roomCode := roomCode, name := userName } s.users },
       [(Dest.roomExcept roomCode cid,
         Msg.userJoined cid userName (valuesA room2.users)),
        (Dest.conn cid, Msg.roomJoined roomCode (valuesA room2.users) false)])

/-- The `offer` handler of server.js (lines 104-110): forward the payload
to the target, tagged with the sender under `caller`; no state change. -/
def handleOffer (s : ServerState) (cid target : Cid) (payload : String) :
    ServerState × List Emit :=
  (s, [(Dest.conn target, Msg.offer payload cid)])

/-- The `answer` handler of server.js (lines 112-118): forward the payload
to the target, tagged with the sender under `answerer`; no state change. -/
def handleAnswer (s : ServerState) (cid target : Cid) (payload : String) :
    ServerState × List Emit :=
  (s, [(Dest.conn target, Msg.answer payload cid)])

/-- The `ice-candidate` handler of server.js (lines 120-125): forward the
payload to the target, tagged with the sender under `sender`; no state
change. -/
def handleIceCandidate (s : ServerState) (cid target : Cid) (payload : String) :
    ServerState × List Emit :=
  (s, [(Dest.conn target, Msg.iceCandidate payload cid)])

/-- The `translation-audio` handler of server.js (lines 128-137): look the
sender up in the registry; if found, broadcast to the other members of the
sender's room; otherwise drop silently. -/
def handleTranslationAudio (s : ServerState) (cid : Cid) (audio language : String) :
    ServerState × List Emit :=
  match lookupA cid s.users with
  | none => (s, [])
  | some u =>
    (s, [(Dest.roomExcept u.roomCode cid, Msg.translationAudio audio language cid)])

/-- The `disconnect` handler of server.js (lines 140-163): look the
connection up in the registry; if found, remove it from its room, emit
`user-left` to the remaining members, delete the room when it became
empty, and remove the registry entry.  Unregistered connections are a
no-op. -/
def handleDisconnect (s : ServerState) (cid : Cid) : ServerState × List Emit :=
  match lookupA cid s.users with
  | none => (s, [])
  | some u =>
    match lookupA u.roomCode s.rooms with
    | none => ({ s with users := delA cid s.users }, [])
    | some room =>
      let room2 : Room := { room with users := delA cid room.users }
      ({ rooms :=
           if room2.users.length = 0 then delA u.roomCode s.rooms
           else setA u.roomCode room2 s.rooms,
         users := delA cid s.users },
       [(Dest.roomExcept u.roomCode cid,
         Msg.userLeft cid (valuesA room2.users))])

/-- An inbound event, carrying the issuing connection and its payload.
`createRoom` additionally carries the digit sequence the random generator
produces while handling it. -/
inductive Event where
  | createRoom (cid : Cid) (userName : String) (ds : List (Fin 36))
  | joinRoom (cid : Cid) (roomCode userName : String)
  | offer (cid target : Cid) (payload : String)
  | answer (cid target : Cid) (payload : String)
  | iceCandidate (cid target : Cid) (payload : String)
  | translationAudio (cid : Cid) (audio language : String)
  | disconnect (cid : Cid)
deriving DecidableEq, Repr

/-- Dispatch one inbound event to its handler (the `io.on('connection')`
wiring of server.js). -/
def step (s : ServerState) : Event → ServerState × List Emit
  | .createRoom cid userName ds => handleCreateRoom s cid userName ds
  | .joinRoom cid roomCode userName => handleJoinRoom s cid roomCode userName
  | .offer cid target payload => handleOffer s cid target payload
  | .answer cid target payload => handleAnswer s cid target payload
  | .iceCandidate cid target payload => handleIceCandidate s cid target payload
  | .translationAudio cid audio language => handleTranslationAudio s cid audio language
  | .disconnect cid => handleDisconnect s cid

/-- The state after one event (emissions discarded). -/
def stepState (s : ServerState) (e : Event) : ServerState := (step s e).1

/-- Run a sequence of events from a state.  The server is single-threaded:
each event is handled to completion before the next. -/
def run (s : ServerState) (tr : List Event) : ServerState := tr.foldl stepState s

/-- The server's initial state: both maps empty. -/
def initState : ServerState := { rooms := [], users := [] }

@[simp]
theorem run_nil (s : ServerState) : run s [] = s := rfl

@[simp]
theorem run_cons (s : ServerState) (e : Event) (tr : List Event) :
    run s (e :: tr) = run (stepState s e) tr := rfl

/-- Invariant preservation lifted from one step to a full trace. -/
theorem run_preserves (P : ServerState → Prop)
    (hstep : ∀ s e, P s → P (stepState s e)) :
    ∀ tr s, P s → P (run s tr) := by
  intro tr
  induction tr with
  | nil => intro s hs; exact hs
  | cons e tr ih => intro s hs; exact ih (stepState s e) (hstep s e hs)

/-- Case lemma: `join-room` on a code that is not live yields an error to
the requester only. -/
theorem handleJoinRoom_notFound {s : ServerState} {roomCode : String}
    (cid : Cid) (userName : String) (h : lookupA roomCode s.rooms = none) :
    handleJoinRoom s cid roomCode userName =
      (s, [(Dest.conn cid, Msg.error "Room not found")]) := by
  simp [handleJoinRoom, h]

/-- Case lemma: `join-room` on a room with at least four members yields
an error to the requester only. -/
theorem handleJoinRoom_full {s : ServerState} {roomCode : String} {room : Room}
    (cid : Cid) (userName : String) (h : lookupA roomCode s.rooms = some room)
    (h4 : 4 ≤ room.users.length) :
    handleJoinRoom s cid roomCode userName =
      (s, [(Dest.conn cid, Msg.error "Room is full")]) := by
  simp [handleJoinRoom, h, h4]

/-- Successful `join-room`: the member map and the registry are updated. -/
theorem handleJoinRoom_ok {s : ServerState} {roomCode : String} {room : Room}
    (cid : Cid) (userName : String) (h : lookupA roomCode s.rooms = some room)
    (h4 : ¬ 4 ≤ room.users.length) :
    handleJoinRoom s cid roomCode userName =
      ({ rooms :=
           setA roomCode
             { room with
               users := setA cid { id := cid, name := userName, isHost := false } room.users }
             s.rooms,
         users := setA cid { roomCode := roomCode, name := userName } s.users },
       [(Dest.roomExcept roomCode cid,
         Msg.userJoined cid userName
           (valuesA (setA cid { id := cid, name := userName, isHost := false } room.users))),
        (Dest.conn cid,
         Msg.roomJoined roomCode
           (valuesA (setA cid { id := cid, name := userName, isHost := false } room.users))
           false)]) := by
  simp [handleJoinRoom, h, h4]

/-- Case lemma: `disconnect` of a connection absent from the registry is
a no-op with no emissions. -/
theorem handleDisconnect_notReg {s : ServerState} {cid : Cid}
    (h : lookupA cid s.users = none) : handleDisconnect s cid = (s, []) := by
  simp [handleDisconnect, h]

/-- Case lemma: `disconnect` of a registered connection whose room code
is not live drops only the registry entry, with no emissions. -/
theorem handleDisconnect_noRoom {s : ServerState} {cid : Cid} {u : RegEntry}
    (h : lookupA cid s.users = some u) (hr : lookupA u.roomCode s.rooms = none) :
    handleDisconnect s cid = ({ s with users := delA cid s.users }, []) := by
  simp [handleDisconnect, h, hr]

/-- Case lemma: `disconnect` of a registered connection that was the last
member of its room deletes the room within the same operation. -/
theorem handleDisconnect_lastMember {s : ServerState} {cid : Cid} {u : RegEntry}
    {room : Room} (h : lookupA cid s.users = some u)
    (hr : lookupA u.roomCode s.rooms = some room)
    (hempty : (delA cid room.users).length = 0) :
    handleDisconnect s cid =
      ({ rooms := delA u.roomCode s.rooms, users := delA cid s.users },
       [(Dest.roomExcept u.roomCode cid,
         Msg.userLeft cid (valuesA (delA cid room.users)))]) := by
  simp [handleDisconnect, h, hr, hempty]

/-- Case lemma: `disconnect` of a registered connection whose room keeps
other members stores the shrunken room back. -/
theorem handleDisconnect_keep {s : ServerState} {cid : Cid} {u : RegEntry}
    {room : Room} (h : lookupA cid s.users = some u)
    (hr : lookupA u.roomCode s.rooms = some room)
    (hne : (delA cid room.users).length ≠ 0) :
    handleDisconnect s cid =
      ({ rooms := setA u.roomCode { room with users := delA cid room.users } s.rooms,
         users := delA cid s.users },
       [(Dest.roomExcept u.roomCode cid,
         Msg.userLeft cid (valuesA (delA cid room.users)))]) := by
  simp [handleDisconnect, h, hr, hne]

theorem length_setA_le {α β : Type} [DecidableEq α] (k : α) (v : β) (l : List (α × β)) :
    (setA k v l).length ≤ l.length + 1 := by
  rw [length_setA]
  split_ifs <;> omega

/-- C3: a `join-room` for a live room that already has exactly four
members yields `Room is full` to the requester only, adds no member, and
leaves both stores unchanged. -/
theorem join_full_room_rejected (s : ServerState) (cid : Cid)
    (roomCode userName : String) (room : Room)
    (h : lookupA roomCode s.rooms = some room) (h4 : room.users.length = 4) :
    handleJoinRoom s cid roomCode userName =
      (s, [(Dest.conn cid, Msg.error "Room is full")]) :=
  handleJoinRoom_full cid userName h (by omega)

theorem join_full_room_rejected_witness :
    handleJoinRoom
        (run initState
          [Event.createRoom 1 "a" [(10 : Fin 36)], Event.joinRoom 2 "A" "b",
           Event.joinRoom 3 "A" "c", Event.joinRoom 4 "A" "d"])
        5 "A" "e" =
      (run initState
          [Event.createRoom 1 "a" [(10 : Fin 36)], Event.joinRoom 2 "A" "b",
           Event.joinRoom 3 "A" "c", Event.joinRoom 4 "A" "d"],
       [(Dest.conn 5, Msg.error "Room is full")]) :=
  join_full_room_rejected _ 5 "A" "e"
    { code := "A", host := 1,
      users :=
        [(1, { id := 1, name := "a", isHost := true }),
         (2, { id := 2, name := "b", isHost := false }),
         (3, { id := 3, name := "c", isHost := false }),
         (4, { id := 4, name := "d", isHost := false })],
      createdAt := 0 }
    (by decide) (by decide)

/-- C4: a `join-room` whose code matches no live room yields
`Room not found` to the requester only, creates no room, and leaves both
stores unchanged. -/
theorem join_unknown_code_rejected (s : ServerState) (cid : Cid)
    (roomCode userName : String) (h : lookupA roomCode s.rooms = none) :
    handleJoinRoom s cid roomCode userName =
      (s, [(Dest.conn cid, Msg.error "Room not found")]) :=
  handleJoinRoom_notFound cid userName h

theorem join_unknown_code_rejected_witness :
    handleJoinRoom initState 1 "ZZZZZZ" "a" =
      (initState, [(Dest.conn 1, Msg.error "Room not found")]) :=
  join_unknown_code_rejected initState 1 "ZZZZZZ" "a" (by decide)

/-- C8: `offer`, `answer` and `ice-candidate` are pure relays: the state
is unchanged and the sole emission is directed at the target, carrying the
payload unchanged and the sender's id under `caller`, `answerer` and
`sender` respectively.  A target that is not connected receives nothing
and no error is addressed to the sender (delivery to an absent connection
is a transport-level drop). -/
theorem signaling_handlers_pure_relay (s : ServerState) (cid target : Cid)
    (payload : String) :
    handleOffer s cid target payload =
        (s, [(Dest.conn target, Msg.offer payload cid)])
    ∧ handleAnswer s cid target payload =
        (s, [(Dest.conn target, Msg.answer payload cid)])
    ∧ handleIceCandidate s cid target payload =
        (s, [(Dest.conn target, Msg.iceCandidate payload cid)]) :=
  ⟨rfl, rfl, rfl⟩

/-- C9: a `disconnect` for a connection absent from the registry changes
nothing and emits nothing, and handling `disconnect` twice for the same
connection is idempotent: the second invocation is a no-op with no
emissions (in particular no duplicate `user-left`). -/
theorem disconnect_twice_noop (s : ServerState) (cid : Cid) :
    (lookupA cid s.users = none → handleDisconnect s cid = (s, []))
    ∧ handleDisconnect (handleDisconnect s cid).1 cid =
        ((handleDisconnect s cid).1, []) := by
  constructor
  · intro h; exact handleDisconnect_notReg h
  · have h2 : lookupA cid (handleDisconnect s cid).1.users = none := by
      cases hU : lookupA cid s.users with
      | none => rw [handleDisconnect_notReg hU]; exact hU
      | some u =>
        cases hR : lookupA u.roomCode s.rooms with
        | none => rw [handleDisconnect_noRoom hU hR]; simp
        | some room =>
          by_cases hE : (delA cid room.users).length = 0
          · rw [handleDisconnect_lastMember hU hR hE]; simp
          · rw [handleDisconnect_keep hU hR hE]; simp
    exact handleDisconnect_notReg h2

theorem disconnect_twice_noop_witness :
    handleDisconnect initState 7 = (initState, [])
    ∧ handleDisconnect
          (handleDisconnect (run initState [Event.createRoom 1 "a" [(10 : Fin 36)]]) 1).1 1 =
        ((handleDisconnect (run initState [Event.createRoom 1 "a" [(10 : Fin 36)]]) 1).1, []) :=
  ⟨(disconnect_twice_noop initState 7).1 (by decide),
   (disconnect_twice_noop (run initState [Event.createRoom 1 "a" [(10 : Fin 36)]]) 1).2⟩

/-- C5 counterexample: `create-room` with an empty name is not rejected.
At the explicit input (fresh server, connection 1, name `""`, digit
sequence `[10]`) the handler mutates the state — it stores a room under
code `A` whose sole member carries the empty display name and binds the
registry — and the sole emission is `room-created`, not an error. -/
theorem create_empty_name_not_rejected :
    (handleCreateRoom initState 1 "" [(10 : Fin 36)]).1 ≠ initState
    ∧ lookupA "A" (handleCreateRoom initState 1 "" [(10 : Fin 36)]).1.rooms =
        some { code := "A", host := 1,
               users := [(1, { id := 1, name := "", isHost := true })], createdAt := 0 }
    ∧ lookupA 1 (handleCreateRoom initState 1 "" [(10 : Fin 36)]).1.users =
        some { roomCode := "A", name := "" }
    ∧ (handleCreateRoom initState 1 "" [(10 : Fin 36)]).2 =
        [(Dest.conn 1,
          Msg.roomCreated "A" true [{ id := 1, name := "", isHost := true }])] := by
  refine ⟨?_, by decide, by decide, by decide⟩
  intro h
  have := congrArg (fun st => lookupA "A" st.rooms) h
  simp [initState] at this
  exact absurd this (by decide)

/-- C5 amended: the `create-room` handler performs no name validation at
all.  For every state, connection and name — the empty name included — it
creates the room, flags the creator as host, binds the registry entry,
and emits `room-created` (never an error) to the requester. -/
theorem create_room_never_validates_name (s : ServerState) (cid : Cid)
    (userName : String) (ds : List (Fin 36)) :
    lookupA (generateRoomCode ds) (handleCreateRoom s cid userName ds).1.rooms =
        some { code := generateRoomCode ds, host := cid,
               users := [(cid, { id := cid, name := userName, isHost := true })],
               createdAt := 0 }
    ∧ lookupA cid (handleCreateRoom s cid userName ds).1.users =
        some { roomCode := generateRoomCode ds, name := userName }
    ∧ (handleCreateRoom s cid userName ds).2 =
        [(Dest.conn cid,
          Msg.roomCreated (generateRoomCode ds) true
            [{ id := cid, name := userName, isHost := true }])] := by
  refine ⟨?_, ?_, rfl⟩
  · simp [handleCreateRoom, setA]
  · simp [handleCreateRoom]

/-- An uppercase alphanumeric character: a decimal digit or an uppercase
letter. -/
def isUpperAlnum (c : Char) : Bool :=
  (decide ('0' ≤ c) && decide (c ≤ '9')) || (decide ('A' ≤ c) && decide (c ≤ 'Z'))

theorem b36_upperAlnum : ∀ i : Fin 36, isUpperAlnum (b36 i) = true := by decide

/-- C6 counterexample: the stored room code is neither of fixed length six
nor collision-checked.  The digit sequence of the random value `0` yields
the empty code (length 0, and it is stored as a live room's key), and two
`create-room` events drawing the same digit sequence produce the same code
`A`: the second silently replaces the first room (the store ends up with
host 2's room; host 1's room is gone), instead of detecting the collision
and resampling. -/
theorem room_code_shape_and_collision_cex :
    (generateRoomCode []).length = 0
    ∧ lookupA "" (run initState [Event.createRoom 1 "a" []]).rooms =
        some { code := "", host := 1,
               users := [(1, { id := 1, name := "a", isHost := true })], createdAt := 0 }
    ∧ (run initState
          [Event.createRoom 1 "a" [(10 : Fin 36)],
           Event.createRoom 2 "b" [(10 : Fin 36)]]).rooms =
        [("A", { code := "A", host := 2,
                 users := [(2, { id := 2, name := "b", isHost := true })],
                 createdAt := 0 })] := by
  refine ⟨rfl, by decide, by decide⟩

/-- C6 amended: a generated room code is an uppercase alphanumeric string
of length at most six (exactly six only when the random value's base-36
expansion has at least six printed fractional digits), and `create-room`
performs no collision check: whatever code is generated, the new room is
stored under it — replacing any live room with the same code — with the
creator as host. -/
theorem room_code_at_most_six_upper_alnum (ds : List (Fin 36)) :
    (generateRoomCode ds).length ≤ 6
    ∧ (∀ c, c ∈ (generateRoomCode ds).data → isUpperAlnum c = true)
    ∧ (∀ (s : ServerState) (cid : Cid) (userName : String),
        (lookupA (generateRoomCode ds) (handleCreateRoom s cid userName ds).1.rooms).map
            Room.host = some cid) := by
  refine ⟨?_, ?_, ?_⟩
  · simp [generateRoomCode, String.length]
  · intro c hc
    simp only [generateRoomCode, String.mk, List.mem_map] at hc
    obtain ⟨i, _, hi⟩ := hc
    rw [← hi]
    exact b36_upperAlnum i
  · intro s cid userName
    simp [handleCreateRoom]

theorem room_code_at_most_six_upper_alnum_witness :
    (generateRoomCode [(10 : Fin 36)]).length ≤ 6
    ∧ isUpperAlnum 'A' = true
    ∧ (lookupA "A"
          (handleCreateRoom
            (run initState [Event.createRoom 1 "a" [(10 : Fin 36)]]) 2 "b"
            [(10 : Fin 36)]).1.rooms).map Room.host = some 2 :=
  ⟨(room_code_at_most_six_upper_alnum [(10 : Fin 36)]).1,
   (room_code_at_most_six_upper_alnum [(10 : Fin 36)]).2.1 'A' (by decide),
   (room_code_at_most_six_upper_alnum [(10 : Fin 36)]).2.2
     (run initState [Event.createRoom 1 "a" [(10 : Fin 36)]]) 2 "b"⟩

/-- Every live room has between one and four members. -/
def RoomSizeInv (s : ServerState) : Prop :=
  ∀ code room, lookupA code s.rooms = some room →
    1 ≤ room.users.length ∧ room.users.length ≤ 4

theorem roomSizeInv_step (s : ServerState) (e : Event) (hInv : RoomSizeInv s) :
    RoomSizeInv (stepState s e) := by
  cases e with
  | createRoom cid userName ds =>
    intro c r h
    simp only [stepState, step, handleCreateRoom, lookupA_setA] at h
    by_cases hc : c = generateRoomCode ds
    · rw [if_pos hc] at h
      cases h
      simp [setA]
    · rw [if_neg hc] at h
      exact hInv c r h
  | joinRoom cid roomCode userName =>
    cases hR : lookupA roomCode s.rooms with
    | none =>
      simp only [stepState, step, handleJoinRoom_notFound cid userName hR]
      exact hInv
    | some room =>
      by_cases h4 : 4 ≤ room.users.length
      · simp only [stepState, step, handleJoinRoom_full cid userName hR h4]
        exact hInv
      · intro c r h
        simp only [stepState, step, handleJoinRoom_ok cid userName hR h4,
          lookupA_setA] at h
        by_cases hc : c = roomCode
        · rw [if_pos hc] at h
          cases h
          have hpos := length_setA_pos cid
            { id := cid, name := userName, isHost := false } room.users
          have hle := length_setA_le cid
            { id := cid, name := userName, isHost := false } room.users
          simp only []
          omega
        · rw [if_neg hc] at h
          exact hInv c r h
  | offer cid target payload => exact hInv
  | answer cid target payload => exact hInv
  | iceCandidate cid target payload => exact hInv
  | translationAudio cid audio language =>
    cases hT : lookupA cid s.users with
    | none => simp only [stepState, step, handleTranslationAudio, hT]; exact hInv
    | some u => simp only [stepState, step, handleTranslationAudio, hT]; exact hInv
  | disconnect cid =>
    cases hU : lookupA cid s.users with
    | none =>
      simp only [stepState, step, handleDisconnect_notReg hU]
      exact hInv
    | some u =>
      cases hR : lookupA u.roomCode s.rooms with
      | none =>
        simp only [stepState, step, handleDisconnect_noRoom hU hR]
        exact hInv
      | some room =>
        by_cases hE : (delA cid room.users).length = 0
        · intro c r h
          simp only [stepState, step, handleDisconnect_lastMember hU hR hE,
            lookupA_delA] at h
          by_cases hc : c = u.roomCode
          · rw [if_pos hc] at h; cases h
          · rw [if_neg hc] at h
            exact hInv c r h
        · intro c r h
          simp only [stepState, step, handleDisconnect_keep hU hR hE,
            lookupA_setA] at h
          by_cases hc : c = u.roomCode
          · rw [if_pos hc] at h
            cases h
            have hle := length_delA_le cid room.users
            have hb := hInv u.roomCode room hR
            simp only []
            omega
          · rw [if_neg hc] at h
            exact hInv c r h

/-- C1: after every sequence of events, every live room has between one
and four members inclusive (MAX_ROOM_SIZE = 4); and whenever a disconnect
removes the last member of its room, the room is deleted within that same
disconnect operation, so a zero-member room is never observable between
operations. -/
theorem room_size_bounds_and_empty_room_deleted :
    (∀ tr code room, lookupA code (run initState tr).rooms = some room →
        1 ≤ room.users.length ∧ room.users.length ≤ 4)
    ∧ (∀ (s : ServerState) (cid : Cid) (u : RegEntry) (room : Room),
        lookupA cid s.users = some u →
        lookupA u.roomCode s.rooms = some room →
        (delA cid room.users).length = 0 →
        lookupA u.roomCode (handleDisconnect s cid).1.rooms = none) := by
  constructor
  · intro tr
    exact run_preserves RoomSizeInv (fun s e h => roomSizeInv_step s e h) tr initState
      (by intro c r h; simp [initState, lookupA] at h)
  · intro s cid u room hU hR hE
    rw [handleDisconnect_lastMember hU hR hE]
    simp

theorem room_size_bounds_witness :
    (1 ≤ ([((1 : Cid), ({ id := 1, name := "a", isHost := true } : Participant))]).length
      ∧ ([((1 : Cid), ({ id := 1, name := "a", isHost := true } : Participant))]).length ≤ 4)
    ∧ lookupA "A"
        (handleDisconnect (run initState [Event.createRoom 1 "a" [(10 : Fin 36)]]) 1).1.rooms =
      none := by
  constructor
  · exact room_size_bounds_and_empty_room_deleted.1
      [Event.createRoom 1 "a" [(10 : Fin 36)]] "A"
      { code := "A", host := 1,
        users := [(1, { id := 1, name := "a", isHost := true })], createdAt := 0 }
      (by decide)
  · exact room_size_bounds_and_empty_room_deleted.2
      (run initState [Event.createRoom 1 "a" [(10 : Fin 36)]]) 1
      { roomCode := "A", name := "a" }
      { code := "A", host := 1,
        users := [(1, { id := 1, name := "a", isHost := true })], createdAt := 0 }
      (by decide) (by decide) (by decide)

/-- Every member record of every live room carries its own key as `id`,
and only the room's recorded creator (`room.host`) can carry
`isHost = true`. -/
def HostInv (s : ServerState) : Prop :=
  ∀ code room cid p, lookupA code s.rooms = some room →
    lookupA cid room.users = some p →
    p.id = cid ∧ (p.isHost = true → cid = room.host)

theorem hostInv_step (s : ServerState) (e : Event) (hInv : HostInv s) :
    HostInv (stepState s e) := by
  cases e with
  | createRoom cid userName ds =>
    intro c r c2 p h hm
    simp only [stepState, step, handleCreateRoom, lookupA_setA] at h
    by_cases hc : c = generateRoomCode ds
    · rw [if_pos hc] at h
      cases h
      simp only [setA, lookupA] at hm
      by_cases h2 : cid = c2
      · rw [if_pos h2] at hm
        cases hm
        exact ⟨h2, fun _ => h2.symm⟩
      · rw [if_neg h2] at hm
        cases hm
    · rw [if_neg hc] at h
      exact hInv c r c2 p h hm
  | joinRoom cid roomCode userName =>
    cases hR : lookupA roomCode s.rooms with
    | none =>
      simp only [stepState, step, handleJoinRoom_notFound cid userName hR]
      exact hInv
    | some room =>
      by_cases h4 : 4 ≤ room.users.length
      · simp only [stepState, step, handleJoinRoom_full cid userName hR h4]
        exact hInv
      · intro c r c2 p h hm
        simp only [stepState, step, handleJoinRoom_ok cid userName hR h4,
          lookupA_setA] at h
        by_cases hc : c = roomCode
        · rw [if_pos hc] at h
          cases h
          simp only [lookupA_setA] at hm
          by_cases h2 : c2 = cid
          · rw [if_pos h2] at hm
            cases hm
            exact ⟨h2.symm, by simp⟩
          · rw [if_neg h2] at hm
            rw [← hc] at hR
            exact hInv c room c2 p hR hm
        · rw [if_neg hc] at h
          exact hInv c r c2 p h hm
  | offer cid target payload => exact hInv
  | answer cid target payload => exact hInv
  | iceCandidate cid target payload => exact hInv
  | translationAudio cid audio language =>
    cases hT : lookupA cid s.users with
    | none => simp only [stepState, step, handleTranslationAudio, hT]; exact hInv
    | some u => simp only [stepState, step, handleTranslationAudio, hT]; exact hInv
  | disconnect cid =>
    cases hU : lookupA cid s.users with
    | none =>
      simp only [stepState, step, handleDisconnect_notReg hU]
      exact hInv
    | some u =>
      cases hR : lookupA u.roomCode s.rooms with
      | none =>
        simp only [stepState, step, handleDisconnect_noRoom hU hR]
        exact hInv
      | some room =>
        by_cases hE : (delA cid room.users).length = 0
        · intro c r c2 p h hm
          simp only [stepState, step, handleDisconnect_lastMember hU hR hE,
            lookupA_delA] at h
          by_cases hc : c = u.roomCode
          · rw [if_pos hc] at h; cases h
          · rw [if_neg hc] at h
            exact hInv c r c2 p h hm
        · intro c r c2 p h hm
          simp only [stepState, step, handleDisconnect_keep hU hR hE,
            lookupA_setA] at h
          by_cases hc : c = u.roomCode
          · rw [if_pos hc] at h
            cases h
            simp only [lookupA_delA] at hm
            by_cases h2 : c2 = cid
            · rw [if_pos h2] at hm; cases hm
            · rw [if_neg h2] at hm
              exact hInv u.roomCode room c2 p hR hm
          · rw [if_neg hc] at h
            exact hInv c r c2 p h hm

/-- C7 counterexample: after connection 1 creates room `A`, connection 2
joins it, and the host (connection 1) disconnects, room `A` is still live
with one member — and that member map contains no `isHost = true` record
at all, so the room does not have exactly one host. -/
theorem host_lost_after_host_disconnect_cex :
    lookupA "A"
        (run initState
          [Event.createRoom 1 "a" [(10 : Fin 36)], Event.joinRoom 2 "A" "b",
           Event.disconnect 1]).rooms =
      some { code := "A", host := 1,
             users := [(2, { id := 2, name := "b", isHost := false })], createdAt := 0 }
    ∧ (([(((2 : Cid)), ({ id := 2, name := "b", isHost := false } : Participant))]).filter
          (fun q => q.2.isHost)).length = 0 := by
  exact ⟨by decide, by decide⟩

/-- C7 amended: every live room has at most one host-flagged member, and
any host-flagged member is the room's recorded creator; member records
keep their `id` equal to their key; and a disconnect never rewrites the
record of a surviving member.  After the host disconnects while other
members remain, the room persists with zero host-flagged members (host
status is never reassigned). -/
theorem at_most_one_host_per_room :
    (∀ tr code room cid p,
        lookupA code (run initState tr).rooms = some room →
        lookupA cid room.users = some p →
        p.id = cid ∧ (p.isHost = true → cid = room.host))
    ∧ (∀ tr code room cid p cid2 p2,
        lookupA code (run initState tr).rooms = some room →
        lookupA cid room.users = some p → lookupA cid2 room.users = some p2 →
        p.isHost = true → p2.isHost = true → cid = cid2)
    ∧ (∀ (s : ServerState) (cid : Cid) (code : String) (room room2 : Room),
        lookupA code s.rooms = some room →
        lookupA code (handleDisconnect s cid).1.rooms = some room2 →
        ∀ cid2 p, cid2 ≠ cid → lookupA cid2 room.users = some p →
          lookupA cid2 room2.users = some p) := by
  have hrun : ∀ tr, HostInv (run initState tr) := fun tr =>
    run_preserves HostInv (fun s e h => hostInv_step s e h) tr initState
      (by intro c r c2 p h hm; simp [initState, lookupA] at h)
  refine ⟨fun tr code room cid p h hm => hrun tr code room cid p h hm, ?_, ?_⟩
  · intro tr code room cid p cid2 p2 h hm hm2 hh hh2
    have e1 := (hrun tr code room cid p h hm).2 hh
    have e2 := (hrun tr code room cid2 p2 h hm2).2 hh2
    rw [e1, e2]
  · intro s cid code room room2 hRoom hRoom2 cid2 p hne hm
    cases hU : lookupA cid s.users with
    | none =>
      rw [handleDisconnect_notReg hU] at hRoom2
      rw [hRoom] at hRoom2
      cases hRoom2
      exact hm
    | some u =>
      cases hR : lookupA u.roomCode s.rooms with
      | none =>
        rw [handleDisconnect_noRoom hU hR] at hRoom2
        simp only [] at hRoom2
        rw [hRoom] at hRoom2
        cases hRoom2
        exact hm
      | some roomU =>
        by_cases hE : (delA cid roomU.users).length = 0
        · rw [handleDisconnect_lastMember hU hR hE] at hRoom2
          simp only [lookupA_delA] at hRoom2
          by_cases hc : code = u.roomCode
          · rw [if_pos hc] at hRoom2; cases hRoom2
          · rw [if_neg hc] at hRoom2
            rw [hRoom] at hRoom2
            cases hRoom2
            exact hm
        · rw [handleDisconnect_keep hU hR hE] at hRoom2
          simp only [lookupA_setA] at hRoom2
          by_cases hc : code = u.roomCode
          · rw [if_pos hc] at hRoom2
            cases hRoom2
            subst hc
            rw [hRoom] at hR
            cases hR
            simp only [lookupA_delA, if_neg hne]
            exact hm
          · rw [if_neg hc] at hRoom2
            rw [hRoom] at hRoom2
            cases hRoom2
            exact hm

theorem at_most_one_host_per_room_witness :
    (({ id := 1, name := "a", isHost := true } : Participant).id = 1
      ∧ (({ id := 1, name := "a", isHost := true } : Participant).isHost = true →
          (1 : Cid) = ({ code := "A", host := 1,
                         users := [(1, { id := 1, name := "a", isHost := true })],
                         createdAt := 0 } : Room).host))
    ∧ lookupA 2
        ({ code := "A", host := 1,
           users := [(2, { id := 2, name := "b", isHost := false })],
           createdAt := 0 } : Room).users = some { id := 2, name := "b", isHost := false } := by
  constructor
  · exact at_most_one_host_per_room.1 [Event.createRoom 1 "a" [(10 : Fin 36)]] "A"
      { code := "A", host := 1,
        users := [(1, { id := 1, name := "a", isHost := true })], createdAt := 0 }
      1 { id := 1, name := "a", isHost := true } (by decide) (by decide)
  · exact at_most_one_host_per_room.2.2
      (run initState [Event.createRoom 1 "a" [(10 : Fin 36)], Event.joinRoom 2 "A" "b"])
      1 "A"
      { code := "A", host := 1,
        users := [(1, { id := 1, name := "a", isHost := true }),
                  (2, { id := 2, name := "b", isHost := false })], createdAt := 0 }
      { code := "A", host := 1,
        users := [(2, { id := 2, name := "b", isHost := false })], createdAt := 0 }
      (by decide) (by decide) 2 { id := 2, name := "b", isHost := false }
      (by decide) (by decide)


/-- Membership check: `cid` is listed in the member map of the live room
stored at code `a`. -/
def memberOf (s : ServerState) (cid : Cid) (a : String) : Bool :=
  ((lookupA a s.rooms).map (fun room => (lookupA cid room.users).isSome)).getD false

/-- The room code the registry currently binds `cid` to, if any. -/
def registryAt (s : ServerState) (cid : Cid) : Option String :=
  (lookupA cid s.users).map (·.roomCode)

/-- Staleness check: `cid` is a stale member of room `a` when it is still
listed in the member map of `a` while the registry does not point at `a`
(it points elsewhere or is gone). -/
def staleIn (s : ServerState) (cid : Cid) (a : String) : Bool :=
  memberOf s cid a && decide (registryAt s cid ≠ some a)

theorem memberOf_some {s : ServerState} {a : String} {room : Room}
    (h : lookupA a s.rooms = some room) (cid : Cid) :
    memberOf s cid a = (lookupA cid room.users).isSome := by
  simp [memberOf, h]

theorem memberOf_none {s : ServerState} {a : String}
    (h : lookupA a s.rooms = none) (cid : Cid) : memberOf s cid a = false := by
  simp [memberOf, h]

theorem staleIn_intro {s : ServerState} {cid : Cid} {a : String}
    (h1 : memberOf s cid a = true) (h2 : registryAt s cid ≠ some a) :
    staleIn s cid a = true := by
  simp [staleIn, h1, h2]

theorem staleIn_elim {s : ServerState} {cid : Cid} {a : String}
    (h : staleIn s cid a = true) :
    memberOf s cid a = true ∧ registryAt s cid ≠ some a := by
  simpa [staleIn, Bool.and_eq_true, decide_eq_true_eq] using h

/-- C10 counterexample: connection 1 creates room `A`, connection 2
creates room `B`, and 1 joins `B` — 1 is now a stale member of `A`.  The
claim says that stale membership is never removed by any later event; but
if 1 then sends `join-room` for `A` (re-pointing its registry entry at
`A`) and disconnects, the disconnect removes 1 from `A` and, `A` having
become empty, deletes room `A` altogether. -/
theorem stale_membership_removed_cex :
    staleIn
        (run initState
          [Event.createRoom 1 "a" [(10 : Fin 36)], Event.createRoom 2 "b" [(11 : Fin 36)],
           Event.joinRoom 1 "B" "a"]) 1 "A" = true
    ∧ lookupA "A"
        (run initState
          [Event.createRoom 1 "a" [(10 : Fin 36)], Event.createRoom 2 "b" [(11 : Fin 36)],
           Event.joinRoom 1 "B" "a", Event.joinRoom 1 "A" "a",
           Event.disconnect 1]).rooms = none := by
  exact ⟨by decide, by decide⟩

/-- C10 amended: a member of a live room `a` that successfully joins a
different, non-full live room `b` is added to `b` and re-registered at
`b` while remaining in `a`'s member map as a stale member (likewise after
a `create-room` whose generated code differs from `a`); and that stale
membership survives every later event except the two that can touch it —
a `join-room` by the same connection back into `a` (which re-points the
registry at `a`, so a later disconnect cleans `a`), and a `create-room`
whose generated code collides with `a` (which replaces the room).  In
particular disconnects, and events of other connections, never remove the
stale member, so `a` cannot be emptied and deleted while it is stale. -/
theorem stale_membership_persists :
    (∀ (s : ServerState) (cid : Cid) (a b userName : String) (roomA roomB : Room),
        lookupA a s.rooms = some roomA → (lookupA cid roomA.users).isSome = true →
        registryAt s cid = some a →
        lookupA b s.rooms = some roomB → b ≠ a → roomB.users.length < 4 →
        memberOf (handleJoinRoom s cid b userName).1 cid b = true
        ∧ registryAt (handleJoinRoom s cid b userName).1 cid = some b
        ∧ staleIn (handleJoinRoom s cid b userName).1 cid a = true)
    ∧ (∀ (s : ServerState) (cid : Cid) (a userName : String) (ds : List (Fin 36)),
        memberOf s cid a = true → generateRoomCode ds ≠ a →
        registryAt (handleCreateRoom s cid userName ds).1 cid =
            some (generateRoomCode ds)
        ∧ staleIn (handleCreateRoom s cid userName ds).1 cid a = true)
    ∧ (∀ (s : ServerState) (cid : Cid) (a : String) (e : Event),
        staleIn s cid a = true →
        (∀ nm, e ≠ Event.joinRoom cid a nm) →
        (∀ c nm ds, e = Event.createRoom c nm ds → generateRoomCode ds ≠ a) →
        staleIn (stepState s e) cid a = true) := by
  refine ⟨?_, ?_, ?_⟩
  · intro s cid a b userName roomA roomB hA hmemA hreg hB hba h4lt
    have h4 : ¬ 4 ≤ roomB.users.length := by omega
    rw [handleJoinRoom_ok cid userName hB h4]
    refine ⟨?_, ?_, ?_⟩
    · simp [memberOf, lookupA_setA]
    · simp [registryAt, lookupA_setA]
    · refine staleIn_intro ?_ ?_
      · have ha2 : lookupA a
            (setA b { roomB with
              users := setA cid { id := cid, name := userName, isHost := false } roomB.users }
              s.rooms) = some roomA := by
          rw [lookupA_setA, if_neg (Ne.symm hba), hA]
        rw [memberOf_some ha2 cid]
        exact hmemA
      · simp only [registryAt, lookupA_setA, if_pos rfl, Option.map_some']
        intro h
        exact hba (Option.some_inj.mp h)
  · intro s cid a userName ds hmem hfresh
    cases hA : lookupA a s.rooms with
    | none => rw [memberOf_none hA cid] at hmem; cases hmem
    | some roomA =>
      rw [memberOf_some hA cid] at hmem
      constructor
      · simp [handleCreateRoom, registryAt, lookupA_setA]
      · refine staleIn_intro ?_ ?_
        · have ha2 : lookupA a (handleCreateRoom s cid userName ds).1.rooms =
              some roomA := by
            simp only [handleCreateRoom, lookupA_setA, if_neg (Ne.symm hfresh)]
            exact hA
          rw [memberOf_some ha2 cid]
          exact hmem
        · simp only [handleCreateRoom, registryAt, lookupA_setA, if_pos rfl,
            Option.map_some']
          intro h
          exact hfresh (Option.some_inj.mp h)
  · intro s cid a e hstale hnjoin hncreate
    obtain ⟨hmem, hregne⟩ := staleIn_elim hstale
    cases hA : lookupA a s.rooms with
    | none => rw [memberOf_none hA cid] at hmem; cases hmem
    | some roomA =>
    rw [memberOf_some hA cid] at hmem
    have hmemS : memberOf s cid a = true := by
      rw [memberOf_some hA cid]; exact hmem
    cases e with
    | createRoom c userName ds =>
      have hfresh := hncreate c userName ds rfl
      refine staleIn_intro ?_ ?_
      · have ha2 : lookupA a (stepState s (Event.createRoom c userName ds)).rooms =
            some roomA := by
          simp only [stepState, step, handleCreateRoom, lookupA_setA,
            if_neg (Ne.symm hfresh)]
          exact hA
        rw [memberOf_some ha2 cid]
        exact hmem
      · simp only [stepState, step, handleCreateRoom, registryAt, lookupA_setA]
        by_cases hc : cid = c
        · rw [if_pos hc, Option.map_some']
          intro h
          exact hfresh (Option.some_inj.mp h)
        · rw [if_neg hc]
          exact hregne
    | joinRoom c b userName =>
      cases hB : lookupA b s.rooms with
      | none =>
        have hs : stepState s (Event.joinRoom c b userName) = s := by
          simp only [stepState, step, handleJoinRoom_notFound c userName hB]
        rw [hs]
        exact staleIn_intro hmemS hregne
      | some roomB =>
        by_cases h4 : 4 ≤ roomB.users.length
        · have hs : stepState s (Event.joinRoom c b userName) = s := by
            simp only [stepState, step, handleJoinRoom_full c userName hB h4]
          rw [hs]
          exact staleIn_intro hmemS hregne
        · have hba : c = cid → b ≠ a := by
            intro hc hb
            exact hnjoin userName (by rw [hc, hb])
          refine staleIn_intro ?_ ?_
          · simp only [stepState, step, handleJoinRoom_ok c userName hB h4]
            by_cases hab : a = b
            · have ha2 : lookupA a
                  (setA b { roomB with
                    users := setA c { id := c, name := userName, isHost := false }
                      roomB.users } s.rooms) =
                  some { roomB with
                    users := setA c { id := c, name := userName, isHost := false }
                      roomB.users } := by
                rw [lookupA_setA, if_pos hab]
              rw [memberOf_some ha2 cid]
              rw [hab, hB] at hA
              cases hA
              simp only [lookupA_setA]
              by_cases hcc : cid = c
              · rw [if_pos hcc]; rfl
              · rw [if_neg hcc]; exact hmem
            · have ha2 : lookupA a
                  (setA b { roomB with
                    users := setA c { id := c, name := userName, isHost := false }
                      roomB.users } s.rooms) = some roomA := by
                rw [lookupA_setA, if_neg hab, hA]
              rw [memberOf_some ha2 cid]
              exact hmem
          · simp only [stepState, step, handleJoinRoom_ok c userName hB h4,
              registryAt, lookupA_setA]
            by_cases hcc : cid = c
            · rw [if_pos hcc, Option.map_some']
              intro h
              exact hba hcc.symm (Option.some_inj.mp h)
            · rw [if_neg hcc]
              exact hregne
    | offer c target payload =>
      exact staleIn_intro hmemS hregne
    | answer c target payload =>
      exact staleIn_intro hmemS hregne
    | iceCandidate c target payload =>
      exact staleIn_intro hmemS hregne
    | translationAudio c audio language =>
      cases hT : lookupA c s.users with
      | none =>
        have hs : stepState s (Event.translationAudio c audio language) = s := by
          simp only [stepState, step, handleTranslationAudio, hT]
        rw [hs]
        exact staleIn_intro hmemS hregne
      | some u =>
        have hs : stepState s (Event.translationAudio c audio language) = s := by
          simp only [stepState, step, handleTranslationAudio, hT]
        rw [hs]
        exact staleIn_intro hmemS hregne
    | disconnect c =>
      cases hU : lookupA c s.users with
      | none =>
        have hs : stepState s (Event.disconnect c) = s := by
          simp only [stepState, step, handleDisconnect_notReg hU]
        rw [hs]
        exact staleIn_intro hmemS hregne
      | some u =>
        by_cases hc : cid = c
        · have hua : u.roomCode ≠ a := by
            intro h
            apply hregne
            simp only [registryAt, hc, hU, Option.map_some', h]
          cases hR : lookupA u.roomCode s.rooms with
          | none =>
            simp only [stepState, step, handleDisconnect_noRoom hU hR]
            refine staleIn_intro hmemS ?_
            simp only [registryAt, lookupA_delA, if_pos hc, Option.map_none']
            intro h
            cases h
          | some roomU =>
            by_cases hE : (delA c roomU.users).length = 0
            · simp only [stepState, step, handleDisconnect_lastMember hU hR hE]
              refine staleIn_intro ?_ ?_
              · have ha2 : lookupA a (delA u.roomCode s.rooms) = some roomA := by
                  rw [lookupA_delA, if_neg (Ne.symm hua), hA]
                rw [memberOf_some ha2 cid]
                exact hmem
              · simp only [registryAt, lookupA_delA, if_pos hc, Option.map_none']
                intro h
                cases h
            · simp only [stepState, step, handleDisconnect_keep hU hR hE]
              refine staleIn_intro ?_ ?_
              · have ha2 : lookupA a
                    (setA u.roomCode { roomU with users := delA c roomU.users } s.rooms) =
                    some roomA := by
                  rw [lookupA_setA, if_neg (Ne.symm hua), hA]
                rw [memberOf_some ha2 cid]
                exact hmem
              · simp only [registryAt, lookupA_delA, if_pos hc, Option.map_none']
                intro h
                cases h
        · cases hR : lookupA u.roomCode s.rooms with
          | none =>
            simp only [stepState, step, handleDisconnect_noRoom hU hR]
            refine staleIn_intro hmemS ?_
            simp only [registryAt, lookupA_delA, if_neg hc]
            exact hregne
          | some roomU =>
            by_cases hE : (delA c roomU.users).length = 0
            · have hua : u.roomCode ≠ a := by
                intro h
                rw [h, hA] at hR
                cases hR
                obtain ⟨p, hp⟩ := Option.isSome_iff_exists.mp hmem
                have hnil : delA c roomA.users = [] := List.length_eq_zero.mp hE
                exact hc (delA_nil_key hnil hp)
              simp only [stepState, step, handleDisconnect_lastMember hU hR hE]
              refine staleIn_intro ?_ ?_
              · have ha2 : lookupA a (delA u.roomCode s.rooms) = some roomA := by
                  rw [lookupA_delA, if_neg (Ne.symm hua), hA]
                rw [memberOf_some ha2 cid]
                exact hmem
              · simp only [registryAt, lookupA_delA, if_neg hc]
                exact hregne
            · simp only [stepState, step, handleDisconnect_keep hU hR hE]
              refine staleIn_intro ?_ ?_
              · by_cases ha : a = u.roomCode
                · have ha2 : lookupA a
                      (setA u.roomCode { roomU with users := delA c roomU.users } s.rooms) =
                      some { roomU with users := delA c roomU.users } := by
                    rw [lookupA_setA, if_pos ha]
                  rw [memberOf_some ha2 cid]
                  rw [ha, hR] at hA
                  cases hA
                  simp only [lookupA_delA, if_neg hc]
                  exact hmem
                · have ha2 : lookupA a
                      (setA u.roomCode { roomU with users := delA c roomU.users } s.rooms) =
                      some roomA := by
                    rw [lookupA_setA, if_neg ha, hA]
                  rw [memberOf_some ha2 cid]
                  exact hmem
              · simp only [registryAt, lookupA_delA, if_neg hc]
                exact hregne

theorem stale_membership_persists_witness :
    (memberOf
        (handleJoinRoom
          (run initState
            [Event.createRoom 1 "a" [(10 : Fin 36)],
             Event.createRoom 2 "b" [(11 : Fin 36)]]) 1 "B" "a").1 1 "B" = true
      ∧ registryAt
          (handleJoinRoom
            (run initState
              [Event.createRoom 1 "a" [(10 : Fin 36)],
               Event.createRoom 2 "b" [(11 : Fin 36)]]) 1 "B" "a").1 1 = some "B"
      ∧ staleIn
          (handleJoinRoom
            (run initState
              [Event.createRoom 1 "a" [(10 : Fin 36)],
               Event.createRoom 2 "b" [(11 : Fin 36)]]) 1 "B" "a").1 1 "A" = true)
    ∧ staleIn
        (stepState
          (run initState
            [Event.createRoom 1 "a" [(10 : Fin 36)], Event.createRoom 2 "b" [(11 : Fin 36)],
             Event.joinRoom 1 "B" "a"])
          (Event.disconnect 2)) 1 "A" = true := by
  constructor
  · exact stale_membership_persists.1
      (run initState
        [Event.createRoom 1 "a" [(10 : Fin 36)], Event.createRoom 2 "b" [(11 : Fin 36)]])
      1 "A" "B" "a"
      { code := "A", host := 1,
        users := [(1, { id := 1, name := "a", isHost := true })], createdAt := 0 }
      { code := "B", host := 2,
        users := [(2, { id := 2, name := "b", isHost := true })], createdAt := 0 }
      (by decide) (by decide) (by decide) (by decide) (by decide) (by decide)
  · exact stale_membership_persists.2.2
      (run initState
        [Event.createRoom 1 "a" [(10 : Fin 36)], Event.createRoom 2 "b" [(11 : Fin 36)],
         Event.joinRoom 1 "B" "a"])
      1 "A" (Event.disconnect 2) (by decide)
      (fun nm h => Event.noConfusion h)
      (fun c nm ds h => Event.noConfusion h)

/-- The agreement the spec asserts between the Connection Registry and the
Room Store: every registry entry points at a live room that lists the
connection as a member, and every member of every live room has a registry
entry pointing back at that room. -/
def StoresAgree (s : ServerState) : Prop :=
  (∀ cid entry, lookupA cid s.users = some entry →
      ∃ room, lookupA entry.roomCode s.rooms = some room
        ∧ (lookupA cid room.users).isSome = true)
  ∧ (∀ code room cid p, lookupA code s.rooms = some room →
      lookupA cid room.users = some p →
      ∃ entry, lookupA cid s.users = some entry ∧ entry.roomCode = code)

/-- C2 counterexample: the two stores can disagree.  Connection 1 creates
room `A`, connection 2 creates room `B`, then connection 1 (still a member
of `A`) joins `B`: room `A` still lists 1 as a member, but 1's registry
entry now points at `B`, so the backward direction of the agreement fails
after this concrete event sequence. -/
theorem stores_agreement_cex :
    ¬ (∀ tr, StoresAgree (run initState tr)) := by
  intro h
  obtain ⟨entry, he, hrc⟩ :=
    (h [Event.createRoom 1 "a" [(10 : Fin 36)], Event.createRoom 2 "b" [(11 : Fin 36)],
        Event.joinRoom 1 "B" "a"]).2 "A"
      { code := "A", host := 1,
        users := [(1, { id := 1, name := "a", isHost := true })], createdAt := 0 }
      1 { id := 1, name := "a", isHost := true } (by decide) (by decide)
  have hu : lookupA 1
      (run initState
        [Event.createRoom 1 "a" [(10 : Fin 36)], Event.createRoom 2 "b" [(11 : Fin 36)],
         Event.joinRoom 1 "B" "a"]).users = some { roomCode := "B", name := "a" } := by
    decide
  have he2 := hu.symm.trans he
  injection he2 with he3
  rw [← he3] at hrc
  exact absurd hrc (by decide)

/-- The discipline under which the agreement is an invariant: a
`create-room` only from an unregistered connection and only with a
generated code that is not already live, and a `join-room` only from an
unregistered connection.  All other events are unrestricted. -/
def preB (s : ServerState) : Event → Bool
  | .createRoom cid _ ds =>
      decide (lookupA cid s.users = none)
        && decide (lookupA (generateRoomCode ds) s.rooms = none)
  | .joinRoom cid _ _ => decide (lookupA cid s.users = none)
  | _ => true

/-- A trace every event of which satisfies `preB` in the state it is
handled in. -/
def goodTrace (s : ServerState) : List Event → Bool
  | [] => true
  | e :: tr => preB s e && goodTrace (stepState s e) tr

theorem run_preserves_good (P : ServerState → Prop)
    (hstep : ∀ s e, P s → preB s e = true → P (stepState s e)) :
    ∀ tr s, P s → goodTrace s tr = true → P (run s tr) := by
  intro tr
  induction tr with
  | nil => intro s hs _; exact hs
  | cons e tr ih =>
    intro s hs hg
    rw [goodTrace, Bool.and_eq_true] at hg
    exact ih (stepState s e) (hstep s e hs hg.1) hg.2

theorem storesAgree_step (s : ServerState) (e : Event) (hA : StoresAgree s)
    (hpre : preB s e = true) : StoresAgree (stepState s e) := by
  obtain ⟨hFwd, hBwd⟩ := hA
  cases e with
  | createRoom cid userName ds =>
    rw [preB, Bool.and_eq_true, decide_eq_true_eq, decide_eq_true_eq] at hpre
    obtain ⟨hU, hF⟩ := hpre
    constructor
    · intro c2 e2 h2
      simp only [stepState, step, handleCreateRoom, lookupA_setA] at h2
      by_cases hc : c2 = cid
      · rw [if_pos hc] at h2
        cases h2
        refine ⟨{ code := generateRoomCode ds, host := cid,
                  users := setA cid { id := cid, name := userName, isHost := true } [],
                  createdAt := 0 }, ?_, ?_⟩
        · simp [stepState, step, handleCreateRoom]
        · subst hc
          simp [setA, lookupA]
      · rw [if_neg hc] at h2
        obtain ⟨r, hr, hm⟩ := hFwd c2 e2 h2
        have hne : e2.roomCode ≠ generateRoomCode ds := by
          intro heq
          rw [heq, hF] at hr
          cases hr
        refine ⟨r, ?_, hm⟩
        simp only [stepState, step, handleCreateRoom, lookupA_setA, if_neg hne]
        exact hr
    · intro c2 r2 cid2 p2 h2 hm2
      simp only [stepState, step, handleCreateRoom, lookupA_setA] at h2
      by_cases hcc : c2 = generateRoomCode ds
      · rw [if_pos hcc] at h2
        cases h2
        simp only [setA, lookupA] at hm2
        by_cases hc2 : cid = cid2
        · refine ⟨{ roomCode := generateRoomCode ds, name := userName }, ?_, hcc.symm⟩
          simp only [stepState, step, handleCreateRoom, lookupA_setA,
            if_pos hc2.symm]
        · rw [if_neg hc2] at hm2
          cases hm2
      · rw [if_neg hcc] at h2
        obtain ⟨e2, he2, hrc2⟩ := hBwd c2 r2 cid2 p2 h2 hm2
        have hc2 : cid2 ≠ cid := by
          intro heq
          rw [heq, hU] at he2
          cases he2
        refine ⟨e2, ?_, hrc2⟩
        simp only [stepState, step, handleCreateRoom, lookupA_setA, if_neg hc2]
        exact he2
  | joinRoom cid roomCode userName =>
    rw [preB, decide_eq_true_eq] at hpre
    cases hR : lookupA roomCode s.rooms with
    | none =>
      have hs : stepState s (Event.joinRoom cid roomCode userName) = s := by
        simp only [stepState, step, handleJoinRoom_notFound cid userName hR]
      rw [hs]
      exact ⟨hFwd, hBwd⟩
    | some room =>
      by_cases h4 : 4 ≤ room.users.length
      · have hs : stepState s (Event.joinRoom cid roomCode userName) = s := by
          simp only [stepState, step, handleJoinRoom_full cid userName hR h4]
        rw [hs]
        exact ⟨hFwd, hBwd⟩
      · constructor
        · intro c2 e2 h2
          simp only [stepState, step, handleJoinRoom_ok cid userName hR h4,
            lookupA_setA] at h2
          by_cases hc : c2 = cid
          · rw [if_pos hc] at h2
            cases h2
            refine ⟨{ room with
                users := setA cid { id := cid, name := userName, isHost := false }
                  room.users }, ?_, ?_⟩
            · simp [stepState, step, handleJoinRoom_ok cid userName hR h4]
            · subst hc
              simp [lookupA_setA]
          · rw [if_neg hc] at h2
            obtain ⟨r, hr, hm⟩ := hFwd c2 e2 h2
            by_cases hrc2 : e2.roomCode = roomCode
            · rw [hrc2, hR] at hr
              cases hr
              refine ⟨{ room with
                  users := setA cid { id := cid, name := userName, isHost := false }
                    room.users }, ?_, ?_⟩
              · simp only [stepState, step, handleJoinRoom_ok cid userName hR h4,
                  lookupA_setA, if_pos hrc2]
              · simp only [lookupA_setA, if_neg hc]
                exact hm
            · refine ⟨r, ?_, hm⟩
              simp only [stepState, step, handleJoinRoom_ok cid userName hR h4,
                lookupA_setA, if_neg hrc2]
              exact hr
        · intro c2 r2 cid2 p2 h2 hm2
          simp only [stepState, step, handleJoinRoom_ok cid userName hR h4,
            lookupA_setA] at h2
          by_cases hcc : c2 = roomCode
          · rw [if_pos hcc] at h2
            cases h2
            simp only [lookupA_setA] at hm2
            by_cases hc2 : cid2 = cid
            · refine ⟨{ roomCode := roomCode, name := userName }, ?_, hcc.symm⟩
              simp only [stepState, step, handleJoinRoom_ok cid userName hR h4,
                lookupA_setA, if_pos hc2]
            · rw [if_neg hc2] at hm2
              obtain ⟨e2, he2, hrc2⟩ := hBwd roomCode room cid2 p2 hR hm2
              refine ⟨e2, ?_, by rw [hrc2, hcc]⟩
              simp only [stepState, step, handleJoinRoom_ok cid userName hR h4,
                lookupA_setA, if_neg hc2]
              exact he2
          · rw [if_neg hcc] at h2
            obtain ⟨e2, he2, hrc2⟩ := hBwd c2 r2 cid2 p2 h2 hm2
            have hc2 : cid2 ≠ cid := by
              intro heq
              rw [heq, hpre] at he2
              cases he2
            refine ⟨e2, ?_, hrc2⟩
            simp only [stepState, step, handleJoinRoom_ok cid userName hR h4,
              lookupA_setA, if_neg hc2]
            exact he2
  | offer cid target payload => exact ⟨hFwd, hBwd⟩
  | answer cid target payload => exact ⟨hFwd, hBwd⟩
  | iceCandidate cid target payload => exact ⟨hFwd, hBwd⟩
  | translationAudio cid audio language =>
    cases hT : lookupA cid s.users with
    | none =>
      have hs : stepState s (Event.translationAudio cid audio language) = s := by
        simp only [stepState, step, handleTranslationAudio, hT]
      rw [hs]
      exact ⟨hFwd, hBwd⟩
    | some u =>
      have hs : stepState s (Event.translationAudio cid audio language) = s := by
        simp only [stepState, step, handleTranslationAudio, hT]
      rw [hs]
      exact ⟨hFwd, hBwd⟩
  | disconnect cid =>
    cases hU : lookupA cid s.users with
    | none =>
      have hs : stepState s (Event.disconnect cid) = s := by
        simp only [stepState, step, handleDisconnect_notReg hU]
      rw [hs]
      exact ⟨hFwd, hBwd⟩
    | some u =>
      obtain ⟨roomU, hRu, hmu⟩ := hFwd cid u hU
      cases hR : lookupA u.roomCode s.rooms with
      | none =>
        rw [hRu] at hR
        cases hR
      | some room =>
        rw [hRu] at hR
        cases hR
        by_cases hE : (delA cid roomU.users).length = 0
        · have hnil : delA cid roomU.users = [] := List.length_eq_zero.mp hE
          constructor
          · intro c2 e2 h2
            simp only [stepState, step, handleDisconnect_lastMember hU hRu hE,
              lookupA_delA] at h2
            by_cases hc : c2 = cid
            · rw [if_pos hc] at h2
              cases h2
            · rw [if_neg hc] at h2
              obtain ⟨r, hr, hm⟩ := hFwd c2 e2 h2
              have hne : e2.roomCode ≠ u.roomCode := by
                intro heq
                rw [heq, hRu] at hr
                cases hr
                obtain ⟨p, hp⟩ := Option.isSome_iff_exists.mp hm
                exact hc (delA_nil_key hnil hp)
              refine ⟨r, ?_, hm⟩
              simp only [stepState, step, handleDisconnect_lastMember hU hRu hE,
                lookupA_delA, if_neg hne]
              exact hr
          · intro c2 r2 cid2 p2 h2 hm2
            simp only [stepState, step, handleDisconnect_lastMember hU hRu hE,
              lookupA_delA] at h2
            by_cases hcc : c2 = u.roomCode
            · rw [if_pos hcc] at h2
              cases h2
            · rw [if_neg hcc] at h2
              obtain ⟨e2, he2, hrc2⟩ := hBwd c2 r2 cid2 p2 h2 hm2
              have hc2 : cid2 ≠ cid := by
                intro heq
                rw [heq, hU] at he2
                cases he2
                exact hcc (hrc2.symm)
              refine ⟨e2, ?_, hrc2⟩
              simp only [stepState, step, handleDisconnect_lastMember hU hRu hE,
                lookupA_delA, if_neg hc2]
              exact he2
        · constructor
          · intro c2 e2 h2
            simp only [stepState, step, handleDisconnect_keep hU hRu hE,
              lookupA_delA] at h2
            by_cases hc : c2 = cid
            · rw [if_pos hc] at h2
              cases h2
            · rw [if_neg hc] at h2
              obtain ⟨r, hr, hm⟩ := hFwd c2 e2 h2
              by_cases hrc2 : e2.roomCode = u.roomCode
              · rw [hrc2, hRu] at hr
                cases hr
                refine ⟨{ roomU with users := delA cid roomU.users }, ?_, ?_⟩
                · simp only [stepState, step, handleDisconnect_keep hU hRu hE,
                    lookupA_setA, if_pos hrc2]
                · simp only [lookupA_delA, if_neg hc]
                  exact hm
              · refine ⟨r, ?_, hm⟩
                simp only [stepState, step, handleDisconnect_keep hU hRu hE,
                  lookupA_setA, if_neg hrc2]
                exact hr
          · intro c2 r2 cid2 p2 h2 hm2
            simp only [stepState, step, handleDisconnect_keep hU hRu hE,
              lookupA_setA] at h2
            by_cases hcc : c2 = u.roomCode
            · rw [if_pos hcc] at h2
              cases h2
              simp only [lookupA_delA] at hm2
              by_cases hc2 : cid2 = cid
              · rw [if_pos hc2] at hm2
                cases hm2
              · rw [if_neg hc2] at hm2
                obtain ⟨e2, he2, hrc2⟩ := hBwd u.roomCode roomU cid2 p2 hRu hm2
                refine ⟨e2, ?_, by rw [hrc2, hcc]⟩
                simp only [stepState, step, handleDisconnect_keep hU hRu hE,
                  lookupA_delA, if_neg hc2]
                exact he2
            · rw [if_neg hcc] at h2
              obtain ⟨e2, he2, hrc2⟩ := hBwd c2 r2 cid2 p2 h2 hm2
              have hc2 : cid2 ≠ cid := by
                intro heq
                rw [heq, hU] at he2
                cases he2
                exact hcc (hrc2.symm)
              refine ⟨e2, ?_, hrc2⟩
              simp only [stepState, step, handleDisconnect_keep hU hRu hE,
                lookupA_delA, if_neg hc2]
              exact he2

/-- C2 amended: the registry and the room store agree on membership (both
directions, and no registry entry survives its room's deletion) for every
trace in which each `create-room` draws a code that is not currently live
and each `create-room` or `join-room` is issued by a connection that is
not already registered.  Without that discipline the backward direction
fails: a registered connection joining a second room stays listed in the
first room while its registry entry points at the second. -/
theorem stores_agree_of_disciplined_trace (tr : List Event)
    (hg : goodTrace initState tr = true) : StoresAgree (run initState tr) := by
  refine run_preserves_good StoresAgree
    (fun s e h hp => storesAgree_step s e h hp) tr initState ⟨?_, ?_⟩ hg
  · intro cid entry h
    simp [initState, lookupA] at h
  · intro code room cid p h hm
    simp [initState, lookupA] at h

theorem stores_agree_of_disciplined_trace_witness :
    ∃ room,
      lookupA "A"
          (run initState
            [Event.createRoom 1 "a" [(10 : Fin 36)],
             Event.joinRoom 2 "A" "b"]).rooms = some room
        ∧ (lookupA 2 room.users).isSome = true :=
  (stores_agree_of_disciplined_trace
      [Event.createRoom 1 "a" [(10 : Fin 36)], Event.joinRoom 2 "A" "b"]
      (by decide)).1
    2 { roomCode := "A", name := "b" } (by decide)

end VideoCall
